import Mathlib

/-!
Verification of the EQRM training orchestrator
(`src/tensor2struct/commands/eqrm_train.py`).

The file shallowly embeds `EQRMTrainer.load_optimizer`, `EQRMTrainer.step`
and `EQRMTrainer.train` as pure functions over an explicit trainer state,
emitting an event trace that records the observable effects of each call
(checkpoint saves and deletions, optimizer construction, gradient
operations, logging, ...) in source order.

Python reference semantics are embedded as follows: an in-place mutation of
an object shared with the caller (e.g. the EQRM engine's internal counter
advancing during `step`) is threaded back to the caller's state, while a
local rebinding of a parameter name inside a callee (e.g. `optimizer = ...`
inside `EQRMTrainer.step`) is not, exactly as in Python.

Collaborators that are not under `src/` (the `eqrm.EQRM` engine, the
optimizer / lr-scheduler registry classes, the checkpoint `saver`, the model
class and `train.Trainer.eval_model`) are modelled from the spec; each such
definition carries a doc comment saying so.
-/

/-- Identity of an optimizer / lr-scheduler object: which construction site
created it.  `fromLoad n` is the object built by the `n`-th call of
`EQRMTrainer.load_optimizer` (the startup call has `n = 0`); `fromReset s`
is the object rebuilt inside `EQRMTrainer.step` while `last_step = s`. -/
inductive OptId where
  | fromLoad (n : Nat)
  | fromReset (s : Nat)
deriving DecidableEq, Repr

/-- Modelled from the spec: a parameter group of an optimizer — a named,
ordered collection of parameters plus a per-group learning rate
(spec §3 "ParameterGroup"). Parameters are identified by naturals. -/
structure ParamGroup where
  params : List Nat
  lr : Rat
deriving DecidableEq, Repr

/-- Modelled from the spec: an optimizer object as consumed by the trainer —
an identity plus its list of parameter groups (`optimizer.param_groups`). -/
structure Optimizer where
  id : OptId
  param_groups : List ParamGroup
deriving DecidableEq, Repr

/-- Modelled from the spec: `optimizer.non_bert_param_group`, the first of
the two groups of a dual-mode optimizer. -/
def Optimizer.non_bert_param_group (o : Optimizer) : ParamGroup :=
  o.param_groups.headD ⟨[], 0⟩

/-- Modelled from the spec: `optimizer.bert_param_group`, the second of the
two groups of a dual-mode optimizer. -/
def Optimizer.bert_param_group (o : Optimizer) : ParamGroup :=
  (o.param_groups.drop 1).headD ⟨[], 0⟩

/-- Modelled from the spec: a constructed lr-scheduler object — identity,
registry name, and the learning rates of the parameter groups it was
constructed over. -/
structure LrScheduler where
  id : OptId
  name : String
  groupLrs : List Rat
deriving DecidableEq, Repr

/-- Modelled from the spec: behaviour of non-noop lr schedulers, which live
in registry classes outside `src/`.  `schedUpdate name groupLrs step` is the
value returned by `update_lr(step)` for the scheduler registered under
`name`, constructed over groups with learning rates `groupLrs`. -/
structure Registry where
  schedUpdate : String → List Rat → Nat → Option (List Rat)

/-- Modelled from the spec: `lr_scheduler.update_lr(step)`.  The scheduler
registered under the name "noop" reports no learning-rate change (`None`)
for every step (spec §4.2, §8); other schedulers behave as the registry
says. -/
def LrScheduler.update_lr (l : LrScheduler) (reg : Registry) (step : Nat) :
    Option (List Rat) :=
  if l.name = "noop" then none else reg.schedUpdate l.name l.groupLrs step

/-- Modelled from the spec: the model collaborator (the model classes are
not under `src/`).  It exposes the full ordered parameter list and the
encoder ("bert") / other subsets (spec §6 "Model collaborator"). -/
structure Model where
  bertParams : List Nat
  nonBertParams : List Nat
  allParams : List Nat
deriving DecidableEq, Repr

/-- `model.get_bert_parameters()`. -/
def Model.get_bert_parameters (m : Model) : List Nat := m.bertParams

/-- `model.get_non_bert_parameters()`. -/
def Model.get_non_bert_parameters (m : Model) : List Nat := m.nonBertParams

/-- `list(model.parameters())`. -/
def Model.parameters (m : Model) : List Nat := m.allParams

/-- Modelled from the spec: the state of the `eqrm.EQRM` risk-minimization
step engine (`tensor2struct/training/eqrm.py` is not under `src/`): the
configured quantile and burn-in length, a monotonically increasing internal
counter, and the phase indicator (burn-in vs robust), per spec §4.3. -/
structure EQRM where
  quantile : Rat
  burnin_iters : Nat
  counter : Nat
  robustPhase : Bool
deriving DecidableEq, Repr

/-- A freshly constructed `eqrm.EQRM(...)`: counter at its initial value,
phase indicator in the initial burn-in state. -/
def freshEQRM (quantile : Rat) (burnin_iters : Nat) : EQRM :=
  ⟨quantile, burnin_iters, 0, false⟩

/-- Modelled from the spec: `eqrm_trainer.train(model, batch, step)`
(spec §4.3).  The internal counter advances on each call; `reset_flag` is
true exactly on the call where the counter first exceeds `burnin_iters`,
at which point the phase becomes robust.  Returns the updated engine and
the reset flag (the loss value is a black box and is not modelled). -/
def EQRM.train (e : EQRM) : EQRM × Bool :=
  let c := e.counter + 1
  let reset := c = e.burnin_iters + 1
  (⟨e.quantile, e.burnin_iters, c, decide (e.burnin_iters < c)⟩, reset)

/-- The optimizer sub-configuration: learning rates used for the non-bert
and bert parameter groups. -/
structure OptimizerCfg where
  lr : Rat
  bertLr : Rat
deriving DecidableEq, Repr

/-- The nested config dict consumed by `load_optimizer` / `step`: an
`optimizer` block and an optional `lr_scheduler` block (identified by its
registry name). -/
structure Config where
  optimizer : OptimizerCfg
  lr_scheduler : Option String
deriving DecidableEq, Repr

/-- `EQRMTrainConfig`: the fields of the train config read by this file
(`burnin_iters`, `quantile` are declared in `eqrm_train.py`; the rest are
inherited from `train.TrainConfig`, modelled from the spec §6). -/
structure EQRMTrainConfig where
  burnin_iters : Nat
  quantile : Rat
  max_steps : Nat
  report_every_n : Nat
  clip_grad : Option Rat
  use_bert_training : Bool
deriving DecidableEq, Repr

/-- Python truthiness of the optional `clip_grad` float:
`None` and `0.0` are falsy, every other value is truthy. -/
def pyTruthy : Option Rat → Bool
  | none => false
  | some x => decide (x ≠ 0)

/-- Modelled from the spec: `registry.construct("optimizer", ...,
non_bert_params=..., bert_params=...)` — a dual-group optimizer whose
`param_groups` are `[non_bert_param_group, bert_param_group]`
(spec §4.2), with fresh (empty) internal state. -/
def constructOptimizerDual (id : OptId) (cfg : OptimizerCfg)
    (non_bert_params bert_params : List Nat) : Optimizer :=
  ⟨id, [⟨non_bert_params, cfg.lr⟩, ⟨bert_params, cfg.bertLr⟩]⟩

/-- Modelled from the spec: `registry.construct("optimizer", ...,
params=...)` — a single-group optimizer (spec §4.2). -/
def constructOptimizerSingle (id : OptId) (cfg : OptimizerCfg)
    (params : List Nat) : Optimizer :=
  ⟨id, [⟨params, cfg.lr⟩]⟩

/-- Modelled from the spec: `registry.construct("lr_scheduler",
config.get("lr_scheduler", \x7b"name": "noop"\x7d), param_groups=...)`.
The `Option.getD` mirrors the `config.get` default at the call sites in
`eqrm_train.py`: when no `lr_scheduler` block is supplied the scheduler
named "noop" is constructed. -/
def constructLrScheduler (id : OptId) (lrCfg : Option String)
    (groups : List ParamGroup) : LrScheduler :=
  ⟨id, lrCfg.getD "noop", groups.map (fun g => g.lr)⟩

/-- The reserved sentinel step value `tmp_step = int(1e8)` used for OOM
emergency checkpoints. -/
def tmpStep : Nat := 100000000

/-- One observable effect of the trainer, in source order. -/
inductive Event where
  | loadOptimizerEv (id : OptId)
  | loadSaverEv (step : Nat)
  | loadSaverDiscard (step : Nat)
  | evalModel (step : Nat)
  | nextBatch
  | eqrmTrain (step : Nat) (resetFlag : Bool)
  | clipGrad (id : OptId)
  | resetOpt (step : Nat)
  | zeroGrad (id : OptId)
  | backward
  | optStep (id : OptId)
  | updateLr (id : OptId) (step : Nat)
  | lrComputed (lrs : List Rat)
  | report (step : Nat) (lrs : List Rat)
  | advanceStep (step : Nat)
  | saveState (step : Nat)
  | stepRaised (step : Nat)
  | saveEmergency (step : Nat)
  | modelToCpu
  | delModel
  | optimizerToCpu (id : OptId)
  | delOptimizer
  | emptyCache
  | gcCollect
  | loadModel
  | unlinkEmergency (step : Nat)
  | finalSave (step : Nat)
deriving DecidableEq, Repr

/-- `EQRMTrainer.load_optimizer(config)` (eqrm_train.py lines 25–75),
called for the `loadIdx`-th time.  In dual-optimizer mode the two `assert`
statements are embedded as `Except.error` (a failed Python assert
propagates and aborts the run).  On success it returns the optimizer, the
lr scheduler and a freshly constructed EQRM engine. -/
def load_optimizer (cfg : Config) (tc : EQRMTrainConfig) (model : Model)
    (loadIdx : Nat) : Except String (Optimizer × LrScheduler × EQRM) :=
  if tc.use_bert_training then
    let bert_params := model.get_bert_parameters
    let non_bert_params := model.get_non_bert_parameters
    if bert_params.length + non_bert_params.length = model.parameters.length then
      if 0 < bert_params.length then
        let optimizer := constructOptimizerDual (.fromLoad loadIdx)
          cfg.optimizer non_bert_params bert_params
        let lr_scheduler := constructLrScheduler (.fromLoad loadIdx)
          cfg.lr_scheduler
          [optimizer.non_bert_param_group, optimizer.bert_param_group]
        .ok (optimizer, lr_scheduler,
          freshEQRM tc.quantile tc.burnin_iters)
      else
        .error "AssertionError: len(bert_params) > 0"
    else
      .error "AssertionError: parameter partition does not cover all parameters"
  else
    let optimizer := constructOptimizerSingle (.fromLoad loadIdx)
      cfg.optimizer model.get_non_bert_parameters
    let lr_scheduler := constructLrScheduler (.fromLoad loadIdx)
      cfg.lr_scheduler optimizer.param_groups
    .ok (optimizer, lr_scheduler, freshEQRM tc.quantile tc.burnin_iters)

/-- `EQRMTrainer.step(config, train_data_loader, optimizer, lr_scheduler,
last_step, eqrm_trainer)` (eqrm_train.py lines 77–137).  Returns the event
trace of the call and the mutated EQRM engine (shared with the caller in
Python, hence threaded back).  The rebuilt optimizer and lr scheduler of
the reset branch are local rebindings in Python and are therefore NOT
returned to the caller. -/
def EQRMTrainer.step (reg : Registry) (cfg : Config) (tc : EQRMTrainConfig)
    (model : Model) (optimizer : Optimizer) (lr_scheduler : LrScheduler)
    (last_step : Nat) (eqrm_trainer : EQRM) : List Event × EQRM :=
  let tr := EQRM.train eqrm_trainer
  let eqrm' := tr.1
  let reset_opt := tr.2
  let evs0 : List Event := [.nextBatch, .eqrmTrain last_step reset_opt]
  let clipEvs : List Event :=
    if pyTruthy tc.clip_grad && tc.use_bert_training then
      optimizer.param_groups.map (fun _ => Event.clipGrad optimizer.id)
    else []
  let rebuilt : Optimizer × LrScheduler × List Event :=
    if reset_opt then
      if tc.use_bert_training then
        let o := constructOptimizerDual (.fromReset last_step) cfg.optimizer
          model.get_non_bert_parameters model.get_bert_parameters
        let l := constructLrScheduler (.fromReset last_step) cfg.lr_scheduler
          [o.non_bert_param_group, o.bert_param_group]
        (o, l, [Event.resetOpt last_step])
      else
        let o := constructOptimizerSingle (.fromReset last_step) cfg.optimizer
          model.get_non_bert_parameters
        let l := constructLrScheduler (.fromReset last_step) cfg.lr_scheduler
          o.param_groups
        (o, l, [Event.resetOpt last_step])
    else (optimizer, lr_scheduler, [])
  let opt2 := rebuilt.1
  let sched2 := rebuilt.2.1
  let resetEvs := rebuilt.2.2
  let new_lr : List Rat :=
    match sched2.update_lr reg last_step with
    | none => opt2.param_groups.map (fun p => p.lr)
    | some lrs => lrs
  let evs1 : List Event :=
    [.zeroGrad opt2.id, .backward, .optStep opt2.id,
     .updateLr sched2.id last_step, .lrComputed new_lr]
  let repEvs : List Event :=
    if last_step % tc.report_every_n = 0 then [.report last_step new_lr]
    else []
  (evs0 ++ clipEvs ++ resetEvs ++ evs1 ++ repEvs, eqrm')

/-- Modelled from the spec: the step value returned by
`saver.restore / load_saver` — the highest step of any artifact in the
checkpoint directory, or 0 when the directory is empty (spec §4.5). -/
def loadSaverStep (disk : Finset Nat) : Nat := disk.sup id

/-- The mutable trainer state of `EQRMTrainer.train`: the step counter, the
optimizer / lr-scheduler / EQRM-engine objects currently referenced by the
loop, the set of checkpoint step values on disk, and the number of
`load_optimizer` calls made so far (used to mint fresh object ids). -/
structure TState where
  lastStep : Nat
  optimizer : Optimizer
  lrScheduler : LrScheduler
  eqrm : EQRM
  disk : Finset Nat
  loadCount : Nat
deriving DecidableEq

/-- The `if oom:` recovery block of `EQRMTrainer.train` (eqrm_train.py
lines 160–177): save an emergency checkpoint at `tmp_step`, move model and
optimizer state to the cpu, delete them, reclaim device memory, reload the
model, rebuild optimizer / scheduler / EQRM engine via `load_optimizer`,
call `load_saver` discarding the returned step, and unlink the emergency
checkpoint. -/
def oomRecover (cfg : Config) (tc : EQRMTrainConfig) (model : Model)
    (st : TState) : Except String (List Event × TState) :=
  let disk1 := insert tmpStep st.disk
  let evs0 : List Event :=
    [.saveEmergency tmpStep, .modelToCpu, .delModel,
     .optimizerToCpu st.optimizer.id, .delOptimizer, .emptyCache,
     .gcCollect, .loadModel]
  match load_optimizer cfg tc model st.loadCount with
  | .error e => .error e
  | .ok (opt, sched, eq) =>
    let loadedStep := loadSaverStep disk1
    .ok (evs0 ++ [.loadOptimizerEv opt.id, .loadSaverDiscard loadedStep,
                  .unlinkEmergency tmpStep],
      { lastStep := st.lastStep, optimizer := opt, lrScheduler := sched,
        eqrm := eq, disk := disk1.erase tmpStep,
        loadCount := st.loadCount + 1 })

/-- One successful iteration of the `while` loop of `EQRMTrainer.train`:
evaluate, run `step` (the EQRM engine is mutated in place and the
caller-held optimizer / scheduler are unchanged, per Python semantics),
increment `last_step`, save a checkpoint at the new step. -/
def normalIter (reg : Registry) (cfg : Config) (tc : EQRMTrainConfig)
    (model : Model) (st : TState) : List Event × TState :=
  let s := st.lastStep
  let stepRes := EQRMTrainer.step reg cfg tc model st.optimizer
    st.lrScheduler s st.eqrm
  let s' := s + 1
  (Event.evalModel s :: stepRes.1 ++ [.advanceStep s', .saveState s'],
   { st with lastStep := s', eqrm := stepRes.2, disk := insert s' st.disk })

/-- The `while last_step < max_steps` loop of `EQRMTrainer.train`
(eqrm_train.py lines 147–179), driven by a failure schedule: one Bool per
attempted iteration, `true` meaning the attempt raises a `RuntimeError`
inside the `try` block (during `eval_model` / `step`).  Returns the event
trace, the final state, and whether the loop reached its exit condition
(`false` when the schedule was exhausted first).  The final unconditional
`saver.save(modeldir, last_step)` is emitted on normal exit. -/
def trainLoop (reg : Registry) (cfg : Config) (tc : EQRMTrainConfig)
    (model : Model) : List Bool → TState →
    Except String (List Event × TState × Bool)
  | [], st =>
    if st.lastStep < tc.max_steps then .ok ([], st, false)
    else .ok ([.finalSave st.lastStep],
      { st with disk := insert st.lastStep st.disk }, true)
  | f :: rest, st =>
    if st.lastStep < tc.max_steps then
      if f then
        match oomRecover cfg tc model st with
        | .error e => .error e
        | .ok (evs, st') =>
          match trainLoop reg cfg tc model rest st' with
          | .error e => .error e
          | .ok (evs', st'', done) =>
            .ok (Event.evalModel st.lastStep :: Event.stepRaised st.lastStep ::
              evs ++ evs', st'', done)
      else
        let it := normalIter reg cfg tc model st
        match trainLoop reg cfg tc model rest it.2 with
        | .error e => .error e
        | .ok (evs', st'', done) => .ok (it.1 ++ evs', st'', done)
    else .ok ([.finalSave st.lastStep],
      { st with disk := insert st.lastStep st.disk }, true)

/-- `EQRMTrainer.train(config, modeldir)` from the top: build
optimizer / scheduler / EQRM engine, restore the latest checkpoint
obtaining `last_step`, then run the loop on the given failure schedule. -/
def EQRMTrainer.train (reg : Registry) (cfg : Config) (tc : EQRMTrainConfig)
    (model : Model) (disk0 : Finset Nat) (sched : List Bool) :
    Except String (List Event × TState × Bool) :=
  match load_optimizer cfg tc model 0 with
  | .error e => .error e
  | .ok (opt, schd, eq) =>
    let last_step := loadSaverStep disk0
    let st0 : TState := ⟨last_step, opt, schd, eq, disk0, 1⟩
    match trainLoop reg cfg tc model sched st0 with
    | .error e => .error e
    | .ok (evs, st, done) =>
      .ok (Event.loadOptimizerEv opt.id :: Event.loadSaverEv last_step ::
        evs, st, done)

/-! ## Trace analysis: the checkpoint directory and the step counter as
functions of an event-trace prefix. -/

/-- Effect of one event on the set of checkpoint step values on disk.
Saves are keyed by step number (deterministic file names), so saving at an
existing step overwrites its file. -/
def stepDisk (d : Finset Nat) : Event → Finset Nat
  | .saveState s => insert s d
  | .saveEmergency s => insert s d
  | .finalSave s => insert s d
  | .unlinkEmergency s => d.erase s
  | _ => d

/-- The checkpoint directory contents after a trace, starting from `d`. -/
def diskAfter (d : Finset Nat) (evs : List Event) : Finset Nat :=
  evs.foldl stepDisk d

/-- Effect of one event on the in-memory `last_step` value. -/
def stepLs (ls : Nat) : Event → Nat
  | .advanceStep s => s
  | .loadSaverEv s => s
  | _ => ls

/-- The in-memory `last_step` after a trace, starting from `ls`. -/
def lastStepAfter (ls : Nat) (evs : List Event) : Nat :=
  evs.foldl stepLs ls

/-- Local consistency of an event with the running `last_step` value:
normal and final checkpoint saves never exceed it, `last_step` never
decreases, and emergency saves use the reserved sentinel. -/
def okEvent (ls : Nat) : Event → Prop
  | .advanceStep s => ls ≤ s
  | .saveState s => s ≤ ls
  | .finalSave s => s ≤ ls
  | .saveEmergency s => s = tmpStep
  | .loadSaverEv s => ls ≤ s
  | _ => True

/-- A trace is well-formed from `ls` when every event is locally consistent
with the `last_step` value running up to it. -/
def wfEvents : Nat → List Event → Prop
  | _, [] => True
  | ls, e :: evs => okEvent ls e ∧ wfEvents (stepLs ls e) evs

/-- The disk/step invariant: every non-sentinel checkpoint on disk is at a
step not beyond the in-memory `last_step`. -/
def goodDisk (d : Finset Nat) (ls : Nat) : Prop :=
  ∀ s ∈ d, s ≠ tmpStep → s ≤ ls

/-- The step value of a normal (`save_state`) checkpoint write, if any. -/
def savedStep : Event → Option Nat
  | .saveState s => some s
  | _ => none

/-- The step values of the normal checkpoint writes of a trace, in order. -/
def savedSteps (evs : List Event) : List Nat := evs.filterMap savedStep

/-- Events that touch neither the checkpoint directory nor `last_step`. -/
def neutralEvent : Event → Bool
  | .loadSaverEv _ => false
  | .advanceStep _ => false
  | .saveState _ => false
  | .saveEmergency _ => false
  | .unlinkEmergency _ => false
  | .finalSave _ => false
  | _ => true

@[simp] theorem diskAfter_nil (d : Finset Nat) : diskAfter d [] = d := rfl

@[simp] theorem diskAfter_cons (d : Finset Nat) (e : Event) (evs : List Event) :
    diskAfter d (e :: evs) = diskAfter (stepDisk d e) evs := rfl

@[simp] theorem diskAfter_append (d : Finset Nat) (a b : List Event) :
    diskAfter d (a ++ b) = diskAfter (diskAfter d a) b :=
  List.foldl_append ..

@[simp] theorem lastStepAfter_nil (ls : Nat) : lastStepAfter ls [] = ls := rfl

@[simp] theorem lastStepAfter_cons (ls : Nat) (e : Event) (evs : List Event) :
    lastStepAfter ls (e :: evs) = lastStepAfter (stepLs ls e) evs := rfl

@[simp] theorem lastStepAfter_append (ls : Nat) (a b : List Event) :
    lastStepAfter ls (a ++ b) = lastStepAfter (lastStepAfter ls a) b :=
  List.foldl_append ..

theorem neutral_stepDisk (d : Finset Nat) {e : Event}
    (h : neutralEvent e = true) : stepDisk d e = d := by
  cases e <;> simp_all [neutralEvent, stepDisk]

theorem neutral_stepLs (ls : Nat) {e : Event}
    (h : neutralEvent e = true) : stepLs ls e = ls := by
  cases e <;> simp_all [neutralEvent, stepLs]

theorem neutral_okEvent (ls : Nat) {e : Event}
    (h : neutralEvent e = true) : okEvent ls e := by
  cases e <;> simp_all [neutralEvent, okEvent]

theorem neutral_savedStep {e : Event}
    (h : neutralEvent e = true) : savedStep e = none := by
  cases e <;> simp_all [neutralEvent, savedStep]

theorem wfEvents_append (ls : Nat) (a b : List Event) :
    wfEvents ls (a ++ b) ↔ wfEvents ls a ∧ wfEvents (lastStepAfter ls a) b := by
  induction a generalizing ls with
  | nil => simp [wfEvents]
  | cons e a ih => simp [wfEvents, ih, and_assoc]

theorem neutralList_wf {evs : List Event}
    (h : ∀ e ∈ evs, neutralEvent e = true) (ls : Nat) :
    wfEvents ls evs ∧ lastStepAfter ls evs = ls := by
  induction evs generalizing ls with
  | nil => simp [wfEvents]
  | cons e evs ih =>
    have he := h e (by simp)
    have ht : ∀ x ∈ evs, neutralEvent x = true := fun x hx => h x (by simp [hx])
    refine ⟨⟨neutral_okEvent ls he, ?_⟩, ?_⟩
    · rw [neutral_stepLs ls he]; exact (ih ht ls).1
    · rw [lastStepAfter_cons, neutral_stepLs ls he]; exact (ih ht ls).2

theorem neutralList_savedSteps {evs : List Event}
    (h : ∀ e ∈ evs, neutralEvent e = true) : savedSteps evs = [] := by
  induction evs with
  | nil => rfl
  | cons e evs ih =>
    have he := h e (by simp)
    have ht : ∀ x ∈ evs, neutralEvent x = true := fun x hx => h x (by simp [hx])
    simp [savedSteps, List.filterMap_cons, neutral_savedStep he,
      ih ht, savedSteps] at *
    simpa [savedSteps] using ih ht

theorem okEvent_goodDisk {ls : Nat} {e : Event} {d : Finset Nat}
    (ho : okEvent ls e) (hg : goodDisk d ls) :
    goodDisk (stepDisk d e) (stepLs ls e) ∧ ls ≤ stepLs ls e := by
  cases e with
  | advanceStep s =>
    simp only [okEvent] at ho
    exact ⟨fun x hx hne => le_trans (hg x hx hne) ho, ho⟩
  | loadSaverEv s =>
    simp only [okEvent] at ho
    exact ⟨fun x hx hne => le_trans (hg x hx hne) ho, ho⟩
  | saveState s =>
    simp only [okEvent] at ho
    refine ⟨fun x hx hne => ?_, le_refl _⟩
    rcases Finset.mem_insert.mp hx with rfl | hx
    · exact ho
    · exact hg x hx hne
  | finalSave s =>
    simp only [okEvent] at ho
    refine ⟨fun x hx hne => ?_, le_refl _⟩
    rcases Finset.mem_insert.mp hx with rfl | hx
    · exact ho
    · exact hg x hx hne
  | saveEmergency s =>
    simp only [okEvent] at ho
    refine ⟨fun x hx hne => ?_, le_refl _⟩
    rcases Finset.mem_insert.mp hx with rfl | hx
    · exact absurd ho hne
    · exact hg x hx hne
  | unlinkEmergency s =>
    exact ⟨fun x hx hne => hg x (Finset.mem_of_mem_erase hx) hne, le_refl _⟩
  | _ => exact ⟨hg, le_refl _⟩

theorem step_events_neutral (reg : Registry) (cfg : Config)
    (tc : EQRMTrainConfig) (model : Model) (o : Optimizer) (l : LrScheduler)
    (s : Nat) (eq : EQRM) :
    ∀ e ∈ (EQRMTrainer.step reg cfg tc model o l s eq).1,
      neutralEvent e = true := by
  simp only [EQRMTrainer.step, List.forall_mem_append]
  refine ⟨⟨⟨⟨?_, ?_⟩, ?_⟩, ?_⟩, ?_⟩
  · simp [neutralEvent]
  · split
    · simp [neutralEvent]
    · simp
  · split
    · split <;> simp [neutralEvent]
    · simp
  · simp [neutralEvent]
  · split
    · simp [neutralEvent]
    · simp

/-- The event trace of a single oom-recovery block: the emergency save at
the sentinel step first, the device-memory eviction sequence, the model
reload and rebuild, and the sentinel unlink last. -/
def recoveryEvs (oldId newId : OptId) (loaded : Nat) : List Event :=
  [.saveEmergency tmpStep, .modelToCpu, .delModel, .optimizerToCpu oldId,
   .delOptimizer, .emptyCache, .gcCollect, .loadModel,
   .loadOptimizerEv newId, .loadSaverDiscard loaded,
   .unlinkEmergency tmpStep]

theorem load_optimizer_ok_shape (cfg : Config) (tc : EQRMTrainConfig)
    (model : Model) (n : Nat) (o : Optimizer) (l : LrScheduler) (e : EQRM)
    (h : load_optimizer cfg tc model n = .ok (o, l, e)) :
    o.id = .fromLoad n ∧ l.id = .fromLoad n ∧
    e = freshEQRM tc.quantile tc.burnin_iters ∧
    l.name = cfg.lr_scheduler.getD "noop" := by
  by_cases hb : tc.use_bert_training = true
  · simp only [load_optimizer, hb, if_true] at h
    split at h
    · split at h
      · simp only [Except.ok.injEq, Prod.mk.injEq] at h
        obtain ⟨rfl, rfl, rfl⟩ := h
        simp [constructOptimizerDual, constructLrScheduler]
      · simp at h
    · simp at h
  · rw [load_optimizer, if_neg hb] at h
    simp only [Except.ok.injEq, Prod.mk.injEq] at h
    obtain ⟨rfl, rfl, rfl⟩ := h
    simp [constructOptimizerSingle, constructLrScheduler]

theorem oomRecover_ok (cfg : Config) (tc : EQRMTrainConfig) (model : Model)
    (st : TState) (opt : Optimizer) (schd : LrScheduler) (eq : EQRM)
    (hload : load_optimizer cfg tc model st.loadCount = .ok (opt, schd, eq)) :
    oomRecover cfg tc model st =
      .ok (recoveryEvs st.optimizer.id opt.id
            (loadSaverStep (insert tmpStep st.disk)),
        { lastStep := st.lastStep, optimizer := opt, lrScheduler := schd,
          eqrm := eq, disk := (insert tmpStep st.disk).erase tmpStep,
          loadCount := st.loadCount + 1 }) := by
  simp [oomRecover, hload, recoveryEvs]

theorem neutralList_diskAfter {evs : List Event}
    (h : ∀ e ∈ evs, neutralEvent e = true) (d : Finset Nat) :
    diskAfter d evs = d := by
  induction evs generalizing d with
  | nil => rfl
  | cons e evs ih =>
    rw [diskAfter_cons, neutral_stepDisk _ (h e (by simp))]
    exact ih (fun x hx => h x (by simp [hx])) d

/-- The events of one successful loop iteration starting at
`last_step = st.lastStep`. -/
def normalEvs (reg : Registry) (cfg : Config) (tc : EQRMTrainConfig)
    (model : Model) (st : TState) : List Event :=
  Event.evalModel st.lastStep ::
    ((EQRMTrainer.step reg cfg tc model st.optimizer st.lrScheduler
        st.lastStep st.eqrm).1 ++
      [.advanceStep (st.lastStep + 1), .saveState (st.lastStep + 1)])

theorem normalEvs_wf (reg : Registry) (cfg : Config) (tc : EQRMTrainConfig)
    (model : Model) (st : TState) :
    wfEvents st.lastStep (normalEvs reg cfg tc model st) ∧
    lastStepAfter st.lastStep (normalEvs reg cfg tc model st) =
      st.lastStep + 1 ∧
    diskAfter st.disk (normalEvs reg cfg tc model st) =
      insert (st.lastStep + 1) st.disk ∧
    savedSteps (normalEvs reg cfg tc model st) = [st.lastStep + 1] := by
  have hn := step_events_neutral reg cfg tc model st.optimizer st.lrScheduler
    st.lastStep st.eqrm
  obtain ⟨hwfS, hlsS⟩ := neutralList_wf hn st.lastStep
  refine ⟨⟨trivial, ?_⟩, ?_, ?_, ?_⟩
  · simp only [stepLs]
    rw [wfEvents_append, hlsS]
    exact ⟨hwfS, by simp [wfEvents, okEvent, stepLs]⟩
  · simp only [normalEvs, lastStepAfter_cons, lastStepAfter_append]
    rw [show stepLs st.lastStep (Event.evalModel st.lastStep) = st.lastStep from rfl,
      hlsS]
    rfl
  · simp only [normalEvs, diskAfter_cons, diskAfter_append]
    rw [show stepDisk st.disk (Event.evalModel st.lastStep) = st.disk from rfl,
      neutralList_diskAfter hn]
    rfl
  · have h0 := neutralList_savedSteps hn
    simp only [savedSteps] at h0
    simp [normalEvs, savedSteps, List.filterMap_cons, List.filterMap_append,
      savedStep, h0]

theorem recoveryEvs_wf (oldId newId : OptId) (loaded ls : Nat)
    (d : Finset Nat) :
    wfEvents ls (recoveryEvs oldId newId loaded) ∧
    lastStepAfter ls (recoveryEvs oldId newId loaded) = ls ∧
    diskAfter d (recoveryEvs oldId newId loaded) =
      (insert tmpStep d).erase tmpStep ∧
    savedSteps (recoveryEvs oldId newId loaded) = [] := by
  simp [recoveryEvs, wfEvents, okEvent, stepLs, stepDisk,
    savedSteps, savedStep]

theorem trainLoop_spec (reg : Registry) (cfg : Config) (tc : EQRMTrainConfig)
    (model : Model) (sched : List Bool) :
    ∀ (st : TState) (evs : List Event) (st' : TState) (done : Bool),
    trainLoop reg cfg tc model sched st = .ok (evs, st', done) →
    wfEvents st.lastStep evs ∧
    lastStepAfter st.lastStep evs = st'.lastStep ∧
    diskAfter st.disk evs = st'.disk ∧
    st.lastStep ≤ st'.lastStep ∧
    savedSteps evs =
      List.range' (st.lastStep + 1) (st'.lastStep - st.lastStep) ∧
    (done = true → tc.max_steps ≤ st'.lastStep ∧
      evs.getLast? = some (.finalSave st'.lastStep)) ∧
    (done = false → st'.lastStep < tc.max_steps) := by
  induction sched with
  | nil =>
    intro st evs st' done h
    by_cases hlt : st.lastStep < tc.max_steps
    · rw [trainLoop, if_pos hlt] at h
      simp only [Except.ok.injEq, Prod.mk.injEq] at h
      obtain ⟨rfl, rfl, rfl⟩ := h
      refine ⟨trivial, rfl, rfl, le_refl _, by simp [savedSteps, savedStep], ?_, fun _ => hlt⟩
      intro hfalse
      exact absurd hfalse (by simp)
    · rw [trainLoop, if_neg hlt] at h
      simp only [Except.ok.injEq, Prod.mk.injEq] at h
      obtain ⟨rfl, rfl, rfl⟩ := h
      refine ⟨⟨le_refl _, trivial⟩, rfl, rfl, le_refl _, by simp [savedSteps, savedStep], ?_, ?_⟩
      · intro _
        exact ⟨Nat.le_of_not_lt hlt, by simp⟩
      · intro hfalse
        exact absurd hfalse (by simp)
  | cons f rest ih =>
    intro st evs st' done h
    by_cases hlt : st.lastStep < tc.max_steps
    · cases f with
      | false =>
        rw [trainLoop, if_pos hlt, if_neg Bool.false_ne_true] at h
        cases hrec : trainLoop reg cfg tc model rest
            (normalIter reg cfg tc model st).2 with
        | error e => simp [hrec] at h
        | ok r =>
          obtain ⟨evs', st'', done'⟩ := r
          simp only [hrec] at h
          simp only [Except.ok.injEq, Prod.mk.injEq] at h
          obtain ⟨rfl, rfl, rfl⟩ := h
          obtain ⟨ihwf, ihls, ihd, ihle, ihsv, iht, ihf⟩ :=
            ih (normalIter reg cfg tc model st).2 evs' st'' done' hrec
          have hblock := normalEvs_wf reg cfg tc model st
          have hit1 : (normalIter reg cfg tc model st).1 =
              normalEvs reg cfg tc model st := rfl
          have hls1 : (normalIter reg cfg tc model st).2.lastStep =
              st.lastStep + 1 := rfl
          have hdk1 : (normalIter reg cfg tc model st).2.disk =
              insert (st.lastStep + 1) st.disk := rfl
          rw [hit1]
          rw [hls1] at ihwf ihls ihle ihsv
          rw [hdk1] at ihd
          refine ⟨?_, ?_, ?_, ?_, ?_, ?_, ihf⟩
          · rw [wfEvents_append, hblock.2.1]
            exact ⟨hblock.1, ihwf⟩
          · rw [lastStepAfter_append, hblock.2.1]
            exact ihls
          · rw [diskAfter_append, hblock.2.2.1]
            exact ihd
          · exact le_trans (Nat.le_succ _) ihle
          · rw [savedSteps, List.filterMap_append]
            have h1 : List.filterMap savedStep
                (normalEvs reg cfg tc model st) = [st.lastStep + 1] :=
              hblock.2.2.2
            rw [h1]
            have h2 : List.filterMap savedStep evs' = savedSteps evs' := rfl
            rw [h2, ihsv]
            have h3 : st''.lastStep - st.lastStep =
                (st''.lastStep - (st.lastStep + 1)) + 1 := by omega
            rw [h3, List.range'_succ]
            rfl
          · intro hd
            obtain ⟨hm, hl⟩ := iht hd
            refine ⟨hm, ?_⟩
            rw [List.getLast?_append_of_ne_nil]
            · exact hl
            · intro hnil
              rw [hnil] at hl
              simp at hl
      | true =>
        rw [trainLoop, if_pos hlt, if_pos rfl] at h
        cases hload : load_optimizer cfg tc model st.loadCount with
        | error e =>
          rw [oomRecover] at h
          rw [hload] at h
          simp at h
        | ok r =>
          obtain ⟨opt, schd, eq⟩ := r
          rw [oomRecover_ok cfg tc model st opt schd eq hload] at h
          cases hrec : trainLoop reg cfg tc model rest
              { lastStep := st.lastStep, optimizer := opt,
                lrScheduler := schd, eqrm := eq,
                disk := (insert tmpStep st.disk).erase tmpStep,
                loadCount := st.loadCount + 1 } with
          | error e =>
            simp only [hrec] at h
            exact absurd h (by simp)
          | ok r =>
            obtain ⟨evs', st'', done'⟩ := r
            simp only [hrec] at h
            simp only [Except.ok.injEq, Prod.mk.injEq] at h
            obtain ⟨rfl, rfl, rfl⟩ := h
            obtain ⟨ihwf, ihls, ihd, ihle, ihsv, iht, ihf⟩ :=
              ih _ evs' st'' done' hrec
            have hrw := recoveryEvs_wf st.optimizer.id opt.id
              (loadSaverStep (insert tmpStep st.disk)) st.lastStep st.disk
            refine ⟨?_, ?_, ?_, ihle, ?_, ?_, ihf⟩
            · refine ⟨trivial, trivial, ?_⟩
              exact (wfEvents_append st.lastStep _ _).mpr
                ⟨hrw.1, by rw [hrw.2.1]; exact ihwf⟩
            · have key : lastStepAfter st.lastStep
                  (recoveryEvs st.optimizer.id opt.id
                    (loadSaverStep (insert tmpStep st.disk)) ++ evs') =
                  st''.lastStep := by
                rw [lastStepAfter_append, hrw.2.1]
                exact ihls
              exact key
            · have key : diskAfter st.disk
                  (recoveryEvs st.optimizer.id opt.id
                    (loadSaverStep (insert tmpStep st.disk)) ++ evs') =
                  st''.disk := by
                rw [diskAfter_append, hrw.2.2.1]
                exact ihd
              exact key
            · have key : savedSteps
                  (recoveryEvs st.optimizer.id opt.id
                    (loadSaverStep (insert tmpStep st.disk)) ++ evs') =
                  List.range' (st.lastStep + 1)
                    (st''.lastStep - st.lastStep) := by
                have h1 := hrw.2.2.2
                simp only [savedSteps] at h1 ihsv ⊢
                rw [List.filterMap_append, h1, List.nil_append]
                exact ihsv
              exact key
            · intro hd
              obtain ⟨hm, hl⟩ := iht hd
              refine ⟨hm, ?_⟩
              have hne : evs' ≠ [] := by
                intro hnil
                rw [hnil] at hl
                simp at hl
              have hgl := List.getLast?_append_of_ne_nil
                (Event.evalModel st.lastStep :: Event.stepRaised st.lastStep ::
                  recoveryEvs st.optimizer.id opt.id
                    (loadSaverStep (insert tmpStep st.disk))) hne
              rw [hl] at hgl
              exact hgl
    · rw [trainLoop, if_neg hlt] at h
      simp only [Except.ok.injEq, Prod.mk.injEq] at h
      obtain ⟨rfl, rfl, rfl⟩ := h
      refine ⟨⟨le_refl _, trivial⟩, rfl, rfl, le_refl _, by simp [savedSteps, savedStep], ?_, ?_⟩
      · intro _
        exact ⟨Nat.le_of_not_lt hlt, by simp⟩
      · intro hfalse
        exact absurd hfalse (by simp)

theorem wf_good_take (evs : List Event) :
    ∀ (ls : Nat) (d : Finset Nat), wfEvents ls evs → goodDisk d ls →
    ∀ k : Nat, goodDisk (diskAfter d (evs.take k))
      (lastStepAfter ls (evs.take k)) := by
  induction evs with
  | nil => intro ls d _ hg k; simpa using hg
  | cons e evs ih =>
    intro ls d hwf hg k
    obtain ⟨ho, hwf⟩ := hwf
    cases k with
    | zero => simpa using hg
    | succ k =>
      rw [List.take_succ_cons, diskAfter_cons, lastStepAfter_cons]
      exact ih (stepLs ls e) (stepDisk d e) hwf (okEvent_goodDisk ho hg).1 k

/-- The precondition under which `load_optimizer` succeeds: in
dual-optimizer mode the two `assert` statements must hold. -/
def loadOk (tc : EQRMTrainConfig) (model : Model) : Prop :=
  tc.use_bert_training = true →
    (model.get_bert_parameters.length +
        model.get_non_bert_parameters.length = model.parameters.length ∧
      0 < model.get_bert_parameters.length)

instance (tc : EQRMTrainConfig) (model : Model) :
    Decidable (loadOk tc model) := by
  unfold loadOk
  infer_instance

theorem load_optimizer_ok_of_loadOk (cfg : Config) (tc : EQRMTrainConfig)
    (model : Model) (n : Nat) (h : loadOk tc model) :
    ∃ r, load_optimizer cfg tc model n = .ok r := by
  by_cases hb : tc.use_bert_training = true
  · obtain ⟨h1, h2⟩ := h hb
    rw [load_optimizer, if_pos hb, if_pos h1, if_pos h2]
    exact ⟨_, rfl⟩
  · rw [load_optimizer, if_neg hb]
    exact ⟨_, rfl⟩

theorem trainLoop_total (reg : Registry) (cfg : Config)
    (tc : EQRMTrainConfig) (model : Model) (h : loadOk tc model) :
    ∀ (sched : List Bool) (st : TState),
    ∃ r, trainLoop reg cfg tc model sched st = .ok r := by
  intro sched
  induction sched with
  | nil =>
    intro st
    by_cases hlt : st.lastStep < tc.max_steps
    · rw [trainLoop, if_pos hlt]
      exact ⟨_, rfl⟩
    · rw [trainLoop, if_neg hlt]
      exact ⟨_, rfl⟩
  | cons f rest ih =>
    intro st
    by_cases hlt : st.lastStep < tc.max_steps
    · cases f with
      | false =>
        obtain ⟨⟨evs', st'', done'⟩, hrec⟩ :=
          ih (normalIter reg cfg tc model st).2
        rw [trainLoop, if_pos hlt, if_neg Bool.false_ne_true]
        simp only [hrec]
        exact ⟨_, rfl⟩
      | true =>
        obtain ⟨⟨opt, schd, eq⟩, hload⟩ :=
          load_optimizer_ok_of_loadOk cfg tc model st.loadCount h
        obtain ⟨⟨evs', st'', done'⟩, hrec⟩ := ih
          { lastStep := st.lastStep, optimizer := opt, lrScheduler := schd,
            eqrm := eq, disk := (insert tmpStep st.disk).erase tmpStep,
            loadCount := st.loadCount + 1 }
        rw [trainLoop, if_pos hlt, if_pos rfl,
          oomRecover_ok cfg tc model st opt schd eq hload]
        simp only [hrec]
        exact ⟨_, rfl⟩
    · rw [trainLoop, if_neg hlt]
      exact ⟨_, rfl⟩

/-! ## Concrete instances used by witnesses and counterexamples. -/

/-- A registry whose non-noop schedulers always report no change (the
claims below never rely on non-noop scheduler behaviour). -/
def regC : Registry := ⟨fun _ _ _ => none⟩

/-- A config with no `lr_scheduler` block. -/
def cfgC : Config := ⟨⟨1/100, 1/1000⟩, none⟩

/-- A model with no bert parameters and one other parameter. -/
def modelC : Model := ⟨[], [0], [0]⟩

/-- A model with one bert parameter and two other parameters. -/
def modelB : Model := ⟨[5], [0, 1], [5, 0, 1]⟩

/-- `burnin_iters = 1`, `max_steps = 3`, single-group mode: the reset
fires on the engine call made while `last_step = 1`. -/
def tcReset : EQRMTrainConfig := ⟨1, 3/4, 3, 1, none, false⟩

/-- The end-to-end scenario of the spec: `max_steps = 5`,
`burnin_iters = 2`, `report_every_n = 1`, no bert params. -/
def tcSmall : EQRMTrainConfig := ⟨2, 3/4, 5, 1, none, false⟩

/-- `tcSmall` with dual-optimizer mode enabled. -/
def tcB : EQRMTrainConfig := ⟨2, 3/4, 5, 1, none, true⟩

/-- The single-group optimizer built by the startup `load_optimizer` for
`cfgC` / `modelC`. -/
def optC : Optimizer := ⟨.fromLoad 0, [⟨[0], 1/100⟩]⟩

/-- The noop scheduler built by the startup `load_optimizer` for `cfgC`. -/
def schedC : LrScheduler := ⟨.fromLoad 0, "noop", [1/100]⟩

/-- A fresh EQRM engine with `burnin_iters = 2`. -/
def eqC : EQRM := ⟨3/4, 2, 0, false⟩

/-- The trainer state right after startup for `cfgC` / `tcSmall` /
`modelC` with an empty checkpoint directory. -/
def stC : TState := ⟨0, optC, schedC, eqC, ∅, 1⟩

/-- A trainer state whose step counter is already past `max_steps`. -/
def stD : TState := ⟨7, optC, schedC, eqC, ∅, 1⟩

/-- The optimizer identity used by an `optStep` (i.e. `optimizer.step()`)
event, if the event is one. -/
def optStepId : Event → Option OptId
  | .optStep i => some i
  | _ => none

/-- C1: the claim fails on the code.  Concrete run (`burnin_iters = 1`,
`max_steps = 3`, no failures): the engine emits `reset_flag = true` during
the step at `last_step = 1` and that step's `optimizer.step()` uses the
rebuilt optimizer (`fromReset 1`), but the step at `last_step = 2` uses the
startup optimizer (`fromLoad 0`) again — `EQRMTrainer.step` only rebinds
its local variables and returns nothing, so the orchestrator keeps passing
the pre-reset optimizer and scheduler to every later step.  The spec's
intent (rebuilds block subsequent steps, robust phase starts from a clean
slate) is clear, so this is a code bug. -/
theorem c1_reset_rebuild_is_local_only :
    Except.map (fun r => (r.1.filterMap optStepId,
        decide (Event.resetOpt 1 ∈ r.1)))
      (EQRMTrainer.train regC cfgC tcReset modelC ∅ [false, false, false]) =
    .ok ([OptId.fromLoad 0, OptId.fromReset 1, OptId.fromLoad 0], true) := by
  rfl

/-- C2: a `RuntimeError` raised inside the try block of an iteration (at
step index `st.lastStep < max_steps`) is caught: the loop runs the
recovery block, whose post-state carries the same `lastStep` (the counter
is not advanced and no normal checkpoint is written during the failed
attempt), and then continues with the remaining schedule from that state,
so the same step index is retried; moreover, whenever the `load_optimizer`
asserts hold, `trainLoop` returns `.ok` for every failure schedule — the
`RuntimeError` itself is never surfaced to the caller of `train`. -/
theorem c2_oom_caught_retry_same_step (reg : Registry) (cfg : Config)
    (tc : EQRMTrainConfig) (model : Model) (rest sched2 : List Bool)
    (st st0 : TState) (hlt : st.lastStep < tc.max_steps)
    (h : loadOk tc model) :
    (∃ evs st', oomRecover cfg tc model st = .ok (evs, st') ∧
      st'.lastStep = st.lastStep ∧
      savedSteps (Event.evalModel st.lastStep ::
        Event.stepRaised st.lastStep :: evs) = [] ∧
      trainLoop reg cfg tc model (true :: rest) st =
        Except.map (fun r =>
          (Event.evalModel st.lastStep :: Event.stepRaised st.lastStep ::
            (evs ++ r.1), r.2))
          (trainLoop reg cfg tc model rest st')) ∧
    (∃ r, trainLoop reg cfg tc model sched2 st0 = .ok r) := by
  refine ⟨?_, trainLoop_total reg cfg tc model h sched2 st0⟩
  obtain ⟨⟨opt, schd, eq⟩, hload⟩ :=
    load_optimizer_ok_of_loadOk cfg tc model st.loadCount h
  refine ⟨_, _, oomRecover_ok cfg tc model st opt schd eq hload, rfl, ?_, ?_⟩
  · have h1 := (recoveryEvs_wf st.optimizer.id opt.id
      (loadSaverStep (insert tmpStep st.disk)) st.lastStep st.disk).2.2.2
    simp only [savedSteps, List.filterMap_cons, savedStep] at h1 ⊢
    exact h1
  · rw [trainLoop, if_pos hlt, if_pos rfl,
      oomRecover_ok cfg tc model st opt schd eq hload]
    cases hrec : trainLoop reg cfg tc model rest
        { lastStep := st.lastStep, optimizer := opt, lrScheduler := schd,
          eqrm := eq, disk := (insert tmpStep st.disk).erase tmpStep,
          loadCount := st.loadCount + 1 } with
    | error e =>
      simp only [hrec, Except.map]
    | ok r =>
      obtain ⟨evs', st'', done'⟩ := r
      simp only [hrec, Except.map]
      simp [List.cons_append]

/-- Witness for C2 at a concrete input: from the startup state with
`last_step = 0 < 5`, the single-failure schedule recovers and the run
stays `.ok`. -/
theorem c2_witness :
    stC.lastStep < tcSmall.max_steps ∧ loadOk tcSmall modelC ∧
    ((∃ evs st', oomRecover cfgC tcSmall modelC stC = .ok (evs, st') ∧
      st'.lastStep = stC.lastStep ∧
      savedSteps (Event.evalModel stC.lastStep ::
        Event.stepRaised stC.lastStep :: evs) = [] ∧
      trainLoop regC cfgC tcSmall modelC (true :: []) stC =
        Except.map (fun r =>
          (Event.evalModel stC.lastStep :: Event.stepRaised stC.lastStep ::
            (evs ++ r.1), r.2))
          (trainLoop regC cfgC tcSmall modelC [] st')) ∧
    (∃ r, trainLoop regC cfgC tcSmall modelC [true] stC = .ok r)) :=
  ⟨by decide, by decide,
    c2_oom_caught_retry_same_step regC cfgC tcSmall modelC [] [true] stC stC
      (by decide) (by decide)⟩

/-- C3: in dual-optimizer mode, whenever `load_optimizer` succeeds the
bert / non-bert subsets sum exactly to the total parameter count and the
bert subset is non-empty (the two asserts), and the optimizer's groups are
exactly the partition re-read from the model at build time; an empty bert
subset makes `load_optimizer` fail; and the post-OOM rebuild goes through
`load_optimizer` again (so the partition is recomputed from the reloaded
model on every build). -/
theorem c3_partition_asserted (cfg : Config) (tc : EQRMTrainConfig)
    (model : Model) (n : Nat) (hb : tc.use_bert_training = true) :
    (∀ o l e, load_optimizer cfg tc model n = .ok (o, l, e) →
      model.get_bert_parameters.length +
          model.get_non_bert_parameters.length = model.parameters.length ∧
      0 < model.get_bert_parameters.length ∧
      o.param_groups = [⟨model.get_non_bert_parameters, cfg.optimizer.lr⟩,
        ⟨model.get_bert_parameters, cfg.optimizer.bertLr⟩]) ∧
    (model.get_bert_parameters = [] →
      ∀ r, load_optimizer cfg tc model n ≠ .ok r) ∧
    (∀ st evs st', oomRecover cfg tc model st = .ok (evs, st') →
      load_optimizer cfg tc model st.loadCount =
        .ok (st'.optimizer, st'.lrScheduler, st'.eqrm)) := by
  refine ⟨?_, ?_, ?_⟩
  · intro o l e h
    by_cases h1 : model.get_bert_parameters.length +
        model.get_non_bert_parameters.length = model.parameters.length
    · by_cases h2 : 0 < model.get_bert_parameters.length
      · rw [load_optimizer, if_pos hb, if_pos h1, if_pos h2] at h
        simp only [Except.ok.injEq, Prod.mk.injEq] at h
        obtain ⟨rfl, rfl, rfl⟩ := h
        exact ⟨h1, h2, rfl⟩
      · rw [load_optimizer, if_pos hb, if_pos h1, if_neg h2] at h
        exact absurd h (by simp)
    · rw [load_optimizer, if_pos hb, if_neg h1] at h
      exact absurd h (by simp)
  · intro hbE r h
    by_cases h1 : model.get_bert_parameters.length +
        model.get_non_bert_parameters.length = model.parameters.length
    · rw [load_optimizer, if_pos hb, if_pos h1,
        if_neg (by rw [hbE]; simp)] at h
      exact absurd h (by simp)
    · rw [load_optimizer, if_pos hb, if_neg h1] at h
      exact absurd h (by simp)
  · intro st evs st' h
    cases hload : load_optimizer cfg tc model st.loadCount with
    | error e =>
      rw [oomRecover] at h
      rw [hload] at h
      exact absurd h (by simp)
    | ok r =>
      obtain ⟨opt, schd, eq⟩ := r
      rw [oomRecover_ok cfg tc model st opt schd eq hload] at h
      simp only [Except.ok.injEq, Prod.mk.injEq] at h
      obtain ⟨rfl, rfl⟩ := h
      rfl

/-- Witness for C3 at a concrete input: `modelB` (one bert parameter, two
other parameters) in dual mode; the startup load succeeds and its groups
are exactly the recomputed partition. -/
theorem c3_witness :
    tcB.use_bert_training = true ∧
    (modelB.get_bert_parameters.length +
        modelB.get_non_bert_parameters.length = modelB.parameters.length ∧
      0 < modelB.get_bert_parameters.length ∧
      (Optimizer.mk (.fromLoad 0) [⟨[0, 1], 1/100⟩, ⟨[5], 1/1000⟩]).param_groups =
        [⟨modelB.get_non_bert_parameters, cfgC.optimizer.lr⟩,
          ⟨modelB.get_bert_parameters, cfgC.optimizer.bertLr⟩]) :=
  ⟨rfl,
    (c3_partition_asserted cfgC tcB modelB 0 rfl).1
      ⟨.fromLoad 0, [⟨[0, 1], 1/100⟩, ⟨[5], 1/1000⟩]⟩
      ⟨.fromLoad 0, "noop", [1/100, 1/1000]⟩
      ⟨3/4, 2, 0, false⟩ rfl⟩

/-- C4: when the rebuild succeeds, the recovery block's trace is exactly:
emergency save at the sentinel step 100000000 first, then move to cpu,
release, device-memory reclamation, model reload, optimizer / scheduler /
risk-engine rebuild, `load_saver`, and the sentinel unlink last; the
resulting disk equals the pre-failure disk (sentinel gone), and during the
block the sentinel checkpoint is on disk exactly between its save (after
event 1) and its unlink (at event 11) — hence at most one emergency
checkpoint ever exists, and none outside recovery. -/
theorem c4_recovery_order_and_sentinel (cfg : Config)
    (tc : EQRMTrainConfig) (model : Model) (st : TState) (opt : Optimizer)
    (schd : LrScheduler) (eq : EQRM)
    (hload : load_optimizer cfg tc model st.loadCount = .ok (opt, schd, eq))
    (hd : tmpStep ∉ st.disk) :
    ∃ st',
      oomRecover cfg tc model st = .ok
        (recoveryEvs st.optimizer.id opt.id
          (loadSaverStep (insert tmpStep st.disk)), st') ∧
      recoveryEvs st.optimizer.id opt.id
          (loadSaverStep (insert tmpStep st.disk)) =
        [.saveEmergency 100000000, .modelToCpu, .delModel,
         .optimizerToCpu st.optimizer.id, .delOptimizer, .emptyCache,
         .gcCollect, .loadModel, .loadOptimizerEv opt.id,
         .loadSaverDiscard (loadSaverStep (insert 100000000 st.disk)),
         .unlinkEmergency 100000000] ∧
      st'.disk = st.disk ∧
      (∀ k, tmpStep ∈ diskAfter st.disk
          ((recoveryEvs st.optimizer.id opt.id
            (loadSaverStep (insert tmpStep st.disk))).take k) ↔
        1 ≤ k ∧ k ≤ 10) := by
  refine ⟨_, oomRecover_ok cfg tc model st opt schd eq hload, rfl, ?_, ?_⟩
  · exact Finset.erase_insert hd
  · intro k
    rcases k with _ | _ | _ | _ | _ | _ | _ | _ | _ | _ | _ | k <;>
      simp [recoveryEvs, stepDisk, hd]

/-- Witness for C4 at a concrete input: from the startup state with an
empty checkpoint directory, the sentinel is on disk after 5 events of the
recovery block. -/
theorem c4_witness :
    tmpStep ∉ stC.disk ∧
    tmpStep ∈ diskAfter stC.disk
      ((recoveryEvs stC.optimizer.id (OptId.fromLoad 1)
        (loadSaverStep (insert tmpStep stC.disk))).take 5) := by
  refine ⟨by decide, ?_⟩
  have h := c4_recovery_order_and_sentinel cfgC tcSmall modelC stC
    ⟨.fromLoad 1, [⟨[0], 1/100⟩]⟩ ⟨.fromLoad 1, "noop", [1/100]⟩ eqC
    rfl (by decide)
  obtain ⟨st', _, _, _, hiff⟩ := h
  exact (hiff 5).mpr (by decide)

/-- The optimizer object used by `zero_grad` / `backward` / `step()` inside
`EQRMTrainer.step`: the local rebuild when the reset flag `r` fired, the
caller's optimizer otherwise. -/
def stepOpt2 (cfg : Config) (tc : EQRMTrainConfig) (model : Model)
    (o : Optimizer) (s : Nat) (r : Bool) : Optimizer :=
  if r then
    (if tc.use_bert_training then
      constructOptimizerDual (.fromReset s) cfg.optimizer
        model.get_non_bert_parameters model.get_bert_parameters
    else
      constructOptimizerSingle (.fromReset s) cfg.optimizer
        model.get_non_bert_parameters)
  else o

/-- The lr-scheduler object used by `update_lr` inside `EQRMTrainer.step`. -/
def stepSched2 (cfg : Config) (tc : EQRMTrainConfig) (model : Model)
    (l : LrScheduler) (s : Nat) (r : Bool) : LrScheduler :=
  if r then
    (if tc.use_bert_training then
      constructLrScheduler (.fromReset s) cfg.lr_scheduler
        [(constructOptimizerDual (.fromReset s) cfg.optimizer
            model.get_non_bert_parameters
            model.get_bert_parameters).non_bert_param_group,
          (constructOptimizerDual (.fromReset s) cfg.optimizer
            model.get_non_bert_parameters
            model.get_bert_parameters).bert_param_group]
    else
      constructLrScheduler (.fromReset s) cfg.lr_scheduler
        (constructOptimizerSingle (.fromReset s) cfg.optimizer
          model.get_non_bert_parameters).param_groups)
  else l

/-- The `new_lr` value of `EQRMTrainer.step`: the scheduler's answer, or
the per-group learning rates read from the (possibly rebuilt) optimizer
when the scheduler reports no change. -/
def stepNewLr (reg : Registry) (cfg : Config) (tc : EQRMTrainConfig)
    (model : Model) (o : Optimizer) (l : LrScheduler) (s : Nat) (r : Bool) :
    List Rat :=
  match (stepSched2 cfg tc model l s r).update_lr reg s with
  | none => (stepOpt2 cfg tc model o s r).param_groups.map (fun p => p.lr)
  | some lrs => lrs

theorem step_trace_eq (reg : Registry) (cfg : Config)
    (tc : EQRMTrainConfig) (model : Model) (o : Optimizer)
    (l : LrScheduler) (s : Nat) (e : EQRM) :
    (EQRMTrainer.step reg cfg tc model o l s e).1 =
      [Event.nextBatch, Event.eqrmTrain s (EQRM.train e).2] ++
      (if pyTruthy tc.clip_grad && tc.use_bert_training then
        o.param_groups.map (fun _ => Event.clipGrad o.id) else []) ++
      (if (EQRM.train e).2 then [Event.resetOpt s] else []) ++
      [Event.zeroGrad (stepOpt2 cfg tc model o s (EQRM.train e).2).id,
       Event.backward,
       Event.optStep (stepOpt2 cfg tc model o s (EQRM.train e).2).id,
       Event.updateLr (stepSched2 cfg tc model l s (EQRM.train e).2).id s,
       Event.lrComputed (stepNewLr reg cfg tc model o l s (EQRM.train e).2)] ++
      (if s % tc.report_every_n = 0 then
        [Event.report s (stepNewLr reg cfg tc model o l s (EQRM.train e).2)]
      else []) := by
  by_cases hr : (EQRM.train e).2 = true <;>
    by_cases hb : tc.use_bert_training = true <;>
      simp [EQRMTrainer.step, stepOpt2, stepSched2, stepNewLr, hr, hb]

/-- C5: the noop scheduler's `update_lr` reports no change (`None`) at
every step; when no `lr_scheduler` block is supplied, `load_optimizer`
builds the scheduler named "noop"; and in a step where `update_lr` returns
`None`, the learning rates the step reports are read directly from the
optimizer's own parameter groups. -/
theorem c5_noop_scheduler_lr_from_groups (reg : Registry) (cfg : Config)
    (tc : EQRMTrainConfig) (model : Model) (optimizer : Optimizer)
    (lr_scheduler : LrScheduler) (last_step : Nat) (eqrm : EQRM) (n : Nat) :
    (lr_scheduler.name = "noop" →
      lr_scheduler.update_lr reg last_step = none) ∧
    (cfg.lr_scheduler = none → ∀ o l e,
      load_optimizer cfg tc model n = .ok (o, l, e) → l.name = "noop") ∧
    ((EQRM.train eqrm).2 = false →
      lr_scheduler.update_lr reg last_step = none →
      Event.lrComputed (optimizer.param_groups.map (fun p => p.lr)) ∈
        (EQRMTrainer.step reg cfg tc model optimizer lr_scheduler
          last_step eqrm).1) := by
  refine ⟨?_, ?_, ?_⟩
  · intro h
    simp [LrScheduler.update_lr, h]
  · intro hn o l e h
    have hs := (load_optimizer_ok_shape cfg tc model n o l e h).2.2.2
    rw [hn] at hs
    simpa using hs
  · intro hr hnone
    rw [step_trace_eq]
    have h2 : stepNewLr reg cfg tc model optimizer lr_scheduler last_step
        (EQRM.train eqrm).2 =
        optimizer.param_groups.map (fun p => p.lr) := by
      rw [hr]
      simp [stepNewLr, stepSched2, stepOpt2, hnone]
    rw [h2]
    simp [List.mem_append]

/-- Witness for C5 at a concrete input: the noop scheduler built for the
no-`lr_scheduler` config reports no change at step 0, and the step's
reported learning rates are the optimizer's own group rates. -/
theorem c5_witness :
    schedC.name = "noop" ∧ (EQRM.train eqC).2 = false ∧
    schedC.update_lr regC 0 = none ∧
    Event.lrComputed (optC.param_groups.map (fun p => p.lr)) ∈
      (EQRMTrainer.step regC cfgC tcSmall modelC optC schedC 0 eqC).1 :=
  ⟨rfl, by decide,
    (c5_noop_scheduler_lr_from_groups regC cfgC tcSmall modelC optC schedC
      0 eqC 0).1 rfl,
    (c5_noop_scheduler_lr_from_groups regC cfgC tcSmall modelC optC schedC
      0 eqC 0).2.2 (by decide) (by decide)⟩

/-- In-step per-group gradient clipping events. -/
def isClipEv : Event → Bool
  | .clipGrad _ => true
  | _ => false

/-- C6: the step's trace decomposes as `p ++ zero_grad :: backward :: q`
where all clipping events lie in `p` (clipping precedes the zeroing of
gradients and the backward pass), none lie in `q`, and the number of
clipping events is one per parameter group when a truthy `clip_grad` is
configured and dual-optimizer mode is active, and zero otherwise. -/
theorem c6_clip_iff_and_before_backward (reg : Registry) (cfg : Config)
    (tc : EQRMTrainConfig) (model : Model) (optimizer : Optimizer)
    (lr_scheduler : LrScheduler) (last_step : Nat) (eqrm : EQRM) :
    ∃ p q oid,
      (EQRMTrainer.step reg cfg tc model optimizer lr_scheduler last_step
        eqrm).1 = p ++ Event.zeroGrad oid :: Event.backward :: q ∧
      (p.filter isClipEv).length =
        (if pyTruthy tc.clip_grad && tc.use_bert_training then
          optimizer.param_groups.length else 0) ∧
      (Event.zeroGrad oid :: Event.backward :: q).filter isClipEv = [] := by
  refine ⟨[Event.nextBatch, Event.eqrmTrain last_step (EQRM.train eqrm).2] ++
      (if pyTruthy tc.clip_grad && tc.use_bert_training then
        optimizer.param_groups.map (fun _ => Event.clipGrad optimizer.id)
      else []) ++
      (if (EQRM.train eqrm).2 then [Event.resetOpt last_step] else []),
    [Event.optStep (stepOpt2 cfg tc model optimizer last_step
        (EQRM.train eqrm).2).id,
     Event.updateLr (stepSched2 cfg tc model lr_scheduler last_step
        (EQRM.train eqrm).2).id last_step,
     Event.lrComputed (stepNewLr reg cfg tc model optimizer lr_scheduler
        last_step (EQRM.train eqrm).2)] ++
      (if last_step % tc.report_every_n = 0 then
        [Event.report last_step (stepNewLr reg cfg tc model optimizer
          lr_scheduler last_step (EQRM.train eqrm).2)]
      else []),
    (stepOpt2 cfg tc model optimizer last_step (EQRM.train eqrm).2).id,
    ?_, ?_, ?_⟩
  · rw [step_trace_eq]
    simp [List.append_assoc]
  · simp only [List.filter_append, List.length_append]
    have h1 : ([Event.nextBatch,
        Event.eqrmTrain last_step (EQRM.train eqrm).2].filter
          isClipEv).length = 0 := by
      simp [isClipEv]
    have h3 : (((if (EQRM.train eqrm).2 then [Event.resetOpt last_step]
        else []) : List Event).filter isClipEv).length = 0 := by
      split <;> simp [isClipEv]
    rw [h1, h3]
    split
    · simp [isClipEv, List.filter_map, Function.comp]
    · simp
  · simp only [List.filter_cons, List.filter_append]
    have : ∀ nl : List Rat,
        (((if last_step % tc.report_every_n = 0 then
          [Event.report last_step nl] else []) : List Event).filter
            isClipEv) = [] := by
      intro nl
      split <;> simp [isClipEv]
    simp [isClipEv, this]

instance (d : Finset Nat) (ls : Nat) : Decidable (goodDisk d ls) := by
  unfold goodDisk
  infer_instance

/-- C7: the loop exits with `done = true` exactly when the final
`last_step` has reached `max_steps` (and a schedule exhausted mid-run
leaves `last_step < max_steps` with `done = false`); on exit the last
event is the unconditional final checkpoint save at the final step.  In
the spec's concrete scenario (`max_steps = 5`, `burnin_iters = 2`,
`report_every_n = 1`, no bert params, no failures, empty directory) the
run saves normal checkpoints at exactly the steps 1,2,3,4,5 — one after
each completed step — finishes at `last_step = 5`, and ends with the
final save at step 5. -/
theorem c7_termination_and_final_save :
    (∀ (reg : Registry) (cfg : Config) (tc : EQRMTrainConfig)
      (model : Model) (sched : List Bool) (st : TState) (evs : List Event)
      (st' : TState) (done : Bool),
      trainLoop reg cfg tc model sched st = .ok (evs, st', done) →
      (done = true → tc.max_steps ≤ st'.lastStep ∧
        evs.getLast? = some (.finalSave st'.lastStep)) ∧
      (done = false → st'.lastStep < tc.max_steps)) ∧
    Except.map (fun r => (savedSteps r.1, r.2.1.lastStep, r.2.2,
        r.1.getLast?))
      (EQRMTrainer.train regC cfgC tcSmall modelC ∅
        [false, false, false, false, false]) =
      .ok ([1, 2, 3, 4, 5], 5, true, some (.finalSave 5)) := by
  constructor
  · intro reg cfg tc model sched st evs st' done h
    have hs := trainLoop_spec reg cfg tc model sched st evs st' done h
    exact ⟨hs.2.2.2.2.2.1, hs.2.2.2.2.2.2⟩
  · rfl

/-- Witness for C7 at a concrete input: a loop entered with
`last_step = 7 ≥ max_steps = 5` exits at once with the unconditional
final save as its last event. -/
theorem c7_witness :
    tcSmall.max_steps ≤ 7 ∧
    ([Event.finalSave 7] : List Event).getLast? =
      some (Event.finalSave 7) :=
  (c7_termination_and_final_save.1 regC cfgC tcSmall modelC [] stD
    [Event.finalSave 7] ⟨7, optC, schedC, eqC, insert 7 ∅, 1⟩ true rfl).1 rfl

/-- C8 as stated is false: during OOM recovery the emergency checkpoint at
the sentinel step 100000000 is on disk while the in-memory `last_step` is
still the (small) failed step index.  Concrete run: from a fresh start,
one failing attempt at step 0; after 5 events the disk holds the sentinel
checkpoint and `last_step = 0`, so "step of any checkpoint on disk ≤
last_step" evaluates to false at that point. -/
theorem c8_counterexample :
    Except.map (fun r : List Event × TState × Bool =>
        decide (∀ s ∈ diskAfter ∅ (r.1.take 5),
          s ≤ lastStepAfter 0 (r.1.take 5)))
      (EQRMTrainer.train regC cfgC tcSmall modelC ∅ [true]) =
    .ok false := by
  rfl

/-- C8 amended: at every point of the loop's execution, every
NON-SENTINEL checkpoint on disk has step ≤ the in-memory `last_step`
(the transient emergency checkpoint at the reserved sentinel step is the
sole exception), and the normal checkpoint saves of a run are exactly the
consecutive steps `lastStep+1, ..., finalLastStep` in order — each step
boundary is saved exactly once, never duplicated nor skipped, also across
recoveries. -/
theorem c8_amended_disk_invariant (reg : Registry) (cfg : Config)
    (tc : EQRMTrainConfig) (model : Model) (sched : List Bool)
    (st : TState) (evs : List Event) (st' : TState) (done : Bool) (k : Nat)
    (hg : goodDisk st.disk st.lastStep)
    (h : trainLoop reg cfg tc model sched st = .ok (evs, st', done)) :
    goodDisk (diskAfter st.disk (evs.take k))
      (lastStepAfter st.lastStep (evs.take k)) ∧
    savedSteps evs =
      List.range' (st.lastStep + 1) (st'.lastStep - st.lastStep) := by
  have hs := trainLoop_spec reg cfg tc model sched st evs st' done h
  exact ⟨wf_good_take evs st.lastStep st.disk hs.1 hg k,
    hs.2.2.2.2.1⟩

/-- Witness for C8's amended claim at a concrete input. -/
theorem c8_witness :
    goodDisk stD.disk stD.lastStep ∧
    (goodDisk (diskAfter stD.disk ([Event.finalSave 7].take 1))
        (lastStepAfter stD.lastStep ([Event.finalSave 7].take 1)) ∧
      savedSteps [Event.finalSave 7] = List.range' 8 0) :=
  ⟨by decide,
    c8_amended_disk_invariant regC cfgC tcSmall modelC [] stD
      [Event.finalSave 7] ⟨7, optC, schedC, eqC, insert 7 ∅, 1⟩ true 1
      (by decide) rfl⟩

/-- C9: an iteration at step index `st.lastStep` runs the periodic
evaluation strictly before the step's loss computation and optimizer
update: the iteration's trace is `evalModel` followed by the trace of
`EQRMTrainer.step` applied to exactly the pre-evaluation trainer state
(same optimizer, scheduler, engine, step counter — evaluation is a pure
side effect, modelled from the spec, and alters no training state), and
the evaluation event itself touches neither the checkpoint directory nor
the step counter. -/
theorem c9_eval_before_step_and_pure (reg : Registry) (cfg : Config)
    (tc : EQRMTrainConfig) (model : Model) (rest : List Bool) (st : TState)
    (hlt : st.lastStep < tc.max_steps) :
    trainLoop reg cfg tc model (false :: rest) st =
      Except.map (fun r => (normalEvs reg cfg tc model st ++ r.1, r.2))
        (trainLoop reg cfg tc model rest
          (normalIter reg cfg tc model st).2) ∧
    normalEvs reg cfg tc model st =
      Event.evalModel st.lastStep ::
        ((EQRMTrainer.step reg cfg tc model st.optimizer st.lrScheduler
            st.lastStep st.eqrm).1 ++
          [.advanceStep (st.lastStep + 1), .saveState (st.lastStep + 1)]) ∧
    stepDisk st.disk (Event.evalModel st.lastStep) = st.disk ∧
    stepLs st.lastStep (Event.evalModel st.lastStep) = st.lastStep := by
  refine ⟨?_, rfl, rfl, rfl⟩
  rw [trainLoop, if_pos hlt, if_neg Bool.false_ne_true]
  cases hrec : trainLoop reg cfg tc model rest
      (normalIter reg cfg tc model st).2 with
  | error e => simp only [hrec, Except.map]
  | ok r =>
    obtain ⟨evs', st'', done'⟩ := r
    simp only [hrec, Except.map]
    rfl

/-- Witness for C9 at a concrete input. -/
theorem c9_witness :
    stC.lastStep < tcSmall.max_steps ∧
    stepDisk stC.disk (Event.evalModel stC.lastStep) = stC.disk ∧
    stepLs stC.lastStep (Event.evalModel stC.lastStep) = stC.lastStep :=
  ⟨by decide,
    (c9_eval_before_step_and_pure regC cfgC tcSmall modelC [] stC
      (by decide)).2.2.1,
    (c9_eval_before_step_and_pure regC cfgC tcSmall modelC [] stC
      (by decide)).2.2.2⟩

/-- C10: after a successful OOM recovery the risk engine is a freshly
constructed instance — counter restarted at 0 and phase indicator back in
burn-in — because the recovery path rebuilds it via `load_optimizer` and
never restores it from the emergency checkpoint; and the step value
returned by `load_saver` during recovery (the sentinel itself, since the
emergency checkpoint is the highest on disk) is discarded, so `lastStep`
keeps its exact pre-failure value. -/
theorem c10_recovery_fresh_engine_discarded_step (cfg : Config)
    (tc : EQRMTrainConfig) (model : Model) (st : TState) (opt : Optimizer)
    (schd : LrScheduler) (eq : EQRM)
    (hload : load_optimizer cfg tc model st.loadCount = .ok (opt, schd, eq))
    (hbound : ∀ x ∈ st.disk, x ≤ tmpStep) :
    ∃ evs st', oomRecover cfg tc model st = .ok (evs, st') ∧
      st'.eqrm = freshEQRM tc.quantile tc.burnin_iters ∧
      st'.eqrm.counter = 0 ∧ st'.eqrm.robustPhase = false ∧
      st'.lastStep = st.lastStep ∧
      Event.loadSaverDiscard tmpStep ∈ evs := by
  have hsup : loadSaverStep (insert tmpStep st.disk) = tmpStep := by
    rw [loadSaverStep, Finset.sup_insert]
    simp only [id_eq]
    exact max_eq_left (Finset.sup_le (fun b hb => hbound b hb))
  have hsh := load_optimizer_ok_shape cfg tc model st.loadCount opt schd
    eq hload
  refine ⟨_, _, oomRecover_ok cfg tc model st opt schd eq hload,
    ?_, ?_, ?_, rfl, ?_⟩
  · exact hsh.2.2.1
  · simp [hsh.2.2.1, freshEQRM]
  · simp [hsh.2.2.1, freshEQRM]
  · rw [hsup]
    simp [recoveryEvs]

/-- Witness for C10 at a concrete input. -/
theorem c10_witness :
    ∃ evs st', oomRecover cfgC tcSmall modelC stC = .ok (evs, st') ∧
      st'.eqrm = freshEQRM tcSmall.quantile tcSmall.burnin_iters ∧
      st'.eqrm.counter = 0 ∧ st'.eqrm.robustPhase = false ∧
      st'.lastStep = stC.lastStep ∧
      Event.loadSaverDiscard tmpStep ∈ evs :=
  c10_recovery_fresh_engine_discarded_step cfgC tcSmall modelC stC
    ⟨.fromLoad 1, [⟨[0], 1/100⟩]⟩ ⟨.fromLoad 1, "noop", [1/100]⟩ eqC
    rfl (by decide)
